import Mathlib

/-!
Shallow embedding of `src/valhalla/midgard/encoded.h`: the Varint5 ("encoded
polyline") codec — `encode`, `Shape5Decoder`, and the two `decode`
specializations — together with theorems checking the specification's claims.

Modelling conventions:
* An encoded buffer is a `List Nat` of byte values (each `< 256`); the C++
  `char` is read back through `charToInt` (two's-complement signed 8-bit).
* Coordinates are rationals (`ℚ`); the C++ `double` arithmetic of the codec
  is exact on all values exercised here, so `ℚ` is a faithful carrier.
* C++ `int`/`int32_t` values are modelled as `Int` without 32-bit wrap-around:
  every property below constrains inputs to the codec's documented contract
  (scaled coordinates far below 2^31), where no 32-bit overflow occurs.  The
  one place where unsigned 32-bit arithmetic is semantically visible — the
  zig-zag cast chain `~(static_cast<unsigned int>(number) << 1)` — is modelled
  exactly, via `intToU32`.
-/

namespace valhalla.midgard

/-- A decoded point, as built by `Point(double(lon) * prec, double(lat) * prec)`
(encoded.h:97): `.1` is the longitude coordinate, `.2` the latitude. -/
abbrev Point : Type := ℚ × ℚ

/-- encoded.h:18: `constexpr int ENCODE_PRECISION = 1e6`. -/
def ENCODE_PRECISION : Int := 1000000

/-- encoded.h:17: `constexpr double DECODE_PRECISION = 1e-6`. -/
def DECODE_PRECISION : ℚ := 1 / 1000000

/-- Reading a stored byte back as C++ does with `int32_t(*begin)`
(encoded.h:118): `char` is signed 8-bit, so bytes `128..255` read as
negative values. -/
def charToInt (b : Nat) : Int := if b < 128 then (b : Int) else (b : Int) - 256

/-- `static_cast<unsigned int>` of a C++ `int`: the value modulo 2^32. -/
def intToU32 (n : Int) : Nat := (n % (2 ^ 32 : Int)).toNat

/-- encoded.h:206, the sign-folding step of `serialize`:
`number = number < 0 ? ~(static_cast<unsigned int>(number) << 1) : (number << 1)`.
Both ternary arms are computed in `unsigned int`; this returns that unsigned
value.  C++ stores it back into `int number` — for every in-contract delta
(`|number| ≤ 2^30`) the value is `< 2^31`, so the subsequent loop sees exactly
this natural number. -/
def zigzag (number : Int) : Nat :=
  if number < 0 then 2 ^ 32 - 1 - (intToU32 number * 2) % 2 ^ 32
  else intToU32 (number * 2)

/-- encoded.h:208-215, the chunk-emission loop of `serialize`:
while `number >= 0x20` emit `(0x20 | (number & 0x1f)) + 63` and shift right
by 5; then emit the final chunk `number + 63`.  The loop is fuel-structured
so it computes by kernel reduction; the fuel is an upper bound on `number`,
which strictly decreases (`number >>> 5 ≤ number / 32`), so the zero-fuel
case is reached only with `number = 0`, where it agrees with the loop exit. -/
def serializeGo : Nat → Nat → List Nat
  | 0, number => [number + 63]
  | fuel + 1, number =>
    if 0x20 ≤ number then
      ((0x20 ||| (number &&& 0x1f)) + 63) :: serializeGo fuel (number >>> 5)
    else
      [number + 63]

/-- The `serialize` lambda of `encode` (encoded.h:204-216): zig-zag the
signed delta, then emit its 5-bit chunks least-significant first. -/
def serialize (number : Int) : List Nat := serializeGo (zigzag number) (zigzag number)

/-- encoded.h:110-125, the byte loop of `Shape5Decoder::next`: read bytes,
accumulating `result |= (byte & 0x1f) << shift` with `shift` growing by 5,
until a byte without the `0x20` continuation flag; error ("Bad encoded
polyline") if the buffer empties first.  `byte & 0x1f` is the low five bits
of the two's-complement `byte`, i.e. `byte` modulo 32; and since `result`
only ever holds bits below `shift` while each chunk is `< 2^5` placed at
`shift`, the bitwise-or is addition of the shifted chunk. -/
def next5Go : List Nat → Nat → Nat → Except String (Nat × List Nat)
  | [], _, _ => .error "Bad encoded polyline"
  | b :: rest, shift, result =>
    let byte : Int := charToInt b - 63
    let result' : Nat := result + ((byte % 32).toNat <<< shift)
    if 0x20 ≤ byte then next5Go rest (shift + 5) result'
    else .ok (result', rest)

/-- encoded.h:124, the sign-unfolding step of `next`:
`result & 1 ? ~(result >> 1) : (result >> 1)` (two's-complement `~` on `Int`
is `~~~`, i.e. `fun n => -n - 1`). -/
def unzigzag (result : Nat) : Int :=
  if result &&& 1 = 1 then ~~~(((result >>> 1 : Nat)) : Int) else ((result >>> 1 : Nat) : Int)

/-- `Shape5Decoder::next` (encoded.h:110-125): decode one varint sample and
add it to `previous`; returns the decoded absolute value and the remaining
buffer (the advanced cursor). -/
def next5 (previous : Int) (buf : List Nat) : Except String (Int × List Nat) :=
  match next5Go buf 0 0 with
  | .error e => .error e
  | .ok (result, rest) => .ok (previous + unzigzag result, rest)

/-- `Shape5Decoder` (encoded.h:89-126).  `buf` is the byte range
`begin..end` still to be read (the cursor advances by shortening it);
`lat`/`lon` are the two running accumulators; `prec` the decode precision. -/
structure Shape5Decoder where
  buf : List Nat
  lat : Int
  lon : Int
  prec : ℚ
deriving Repr, DecidableEq

/-- The `Shape5Decoder` constructor (encoded.h:91-93): both accumulators
start at zero. -/
def Shape5Decoder.init (begin : List Nat) (precision : ℚ) : Shape5Decoder :=
  { buf := begin, lat := 0, lon := 0, prec := precision }

/-- `Shape5Decoder::empty` (encoded.h:99-101): `begin == end`. -/
def Shape5Decoder.empty (s : Shape5Decoder) : Bool := s.buf.isEmpty

/-- `Shape5Decoder::pop` (encoded.h:94-98): `lat = next(lat); lon = next(lon);
return Point(double(lon) * prec, double(lat) * prec);`.  On a decode error the
C++ exception propagates with the object already mutated: the cursor is at the
end (`next` throws exactly on exhaustion), and `lat` is already updated when
the failure happens on the longitude sample.  The second component is that
post-state. -/
def Shape5Decoder.pop (s : Shape5Decoder) : Except String Point × Shape5Decoder :=
  match next5 s.lat s.buf with
  | .error e => (.error e, { s with buf := [] })
  | .ok (lat, buf1) =>
    match next5 s.lon buf1 with
    | .error e => (.error e, { s with buf := [], lat := lat })
    | .ok (lon, buf2) =>
      (.ok ((lon : ℚ) * s.prec, (lat : ℚ) * s.prec),
       { buf := buf2, lat := lat, lon := lon, prec := s.prec })

/-- The loop of the non-`std::vector` `decode` specialization
(encoded.h:144-155): `while (!shape.empty()) c.emplace_back(shape.pop());`.
Fuel-structured: each successful `pop` consumes at least one byte, so fuel
equal to the buffer length suffices and the zero-fuel case is reached only
with an empty buffer, where it agrees with the loop exit. -/
def decodeGo : Nat → Shape5Decoder → List Point → Except String (List Point)
  | 0, _, c => .ok c
  | fuel + 1, s, c =>
    if s.empty then .ok c
    else
      match s.pop with
      | (.error e, _) => .error e
      | (.ok p, s') => decodeGo fuel s' (c ++ [p])

/-- The non-`std::vector` `decode` specialization (encoded.h:144-155):
no capacity reservation. -/
def decode (encoded : List Nat) (precision : ℚ) : Except String (List Point) :=
  decodeGo encoded.length (Shape5Decoder.init encoded precision) []

/-- The loop of the `std::vector` `decode` specialization (encoded.h:129-141),
identical to `decodeGo` but appending into an `Array`. -/
def decodeVecGo : Nat → Shape5Decoder → Array Point → Except String (Array Point)
  | 0, _, c => .ok c
  | fuel + 1, s, c =>
    if s.empty then .ok c
    else
      match s.pop with
      | (.error e, _) => .error e
      | (.ok p, s') => decodeVecGo fuel s' (c.push p)

/-- The `std::vector` `decode` specialization (encoded.h:129-141): it first
reserves capacity `length / 4` (`Array.mkEmpty`, the capacity hint) and then
runs the same loop. -/
def decodeVec (encoded : List Nat) (precision : ℚ) : Except String (Array Point) :=
  decodeVecGo encoded.length (Shape5Decoder.init encoded precision)
    (Array.mkEmpty (encoded.length / 4))

/-- C++ `round` on an exact rational value: round to nearest, halves away
from zero (encoded.h:223-224 scales by `precision` and rounds). -/
def cRound (q : ℚ) : Int := if q < 0 then -⌊-q + 1 / 2⌋ else ⌊q + 1 / 2⌋

/-- The loop of `encode` (encoded.h:218-231): for each point, scale and round
both coordinates, serialize the latitude delta then the longitude delta, and
update the running previous values. -/
def encodeGo (precision : Int) (last_lat last_lon : Int) : List Point → List Nat
  | [] => []
  | p :: ps =>
    let lon : Int := cRound (p.1 * (precision : ℚ))
    let lat : Int := cRound (p.2 * (precision : ℚ))
    serialize (lat - last_lat) ++ serialize (lon - last_lon) ++ encodeGo precision lat lon ps

/-- `encode` (encoded.h:195-233): both previous values start at zero. -/
def encode (points : List Point) (precision : Int) : List Nat :=
  encodeGo precision 0 0 points

/-- Cursor movement of one `next` call, without the value computation:
consumes bytes while the continuation flag `0x20` is set (after the `- 63`
bias), and one terminating byte.  `none` means the buffer was exhausted
mid-sample. -/
def skipSample : List Nat → Option (List Nat)
  | [] => none
  | b :: rest => if 0x20 ≤ charToInt b - 63 then skipSample rest else some rest

/-- Number of complete varint samples a buffer consists of, `none` if it ends
mid-sample.  Fuel-structured on the buffer length (each sample consumes at
least one byte). -/
def countSamplesGo : Nat → List Nat → Option Nat
  | _, [] => some 0
  | 0, _ => none
  | fuel + 1, buf =>
    match skipSample buf with
    | none => none
    | some rest => (countSamplesGo fuel rest).map (· + 1)

/-- Number of complete varint samples in a buffer, `none` if it ends
mid-sample. -/
def countSamples (buf : List Nat) : Option Nat := countSamplesGo buf.length buf

/-! ### Supporting lemmas -/

/-- Two's-complement `~` on `Int`. -/
lemma not_int_eq (n : Int) : ~~~n = -n - 1 := by
  cases n with
  | ofNat k =>
    show Int.negSucc k = -Int.ofNat k - 1
    rw [Int.negSucc_eq, Int.ofNat_eq_coe]
    ring
  | negSucc k =>
    show Int.ofNat k = -Int.negSucc k - 1
    rw [Int.negSucc_eq, Int.ofNat_eq_coe]
    ring

/-- On every in-contract delta the unsigned-cast chain of encoded.h:206 is
the textbook zig-zag map. -/
lemma zigzag_eq (d : Int) (h1 : -(2 ^ 30) ≤ d) (h2 : d < 2 ^ 30) :
    (zigzag d : Int) = if d < 0 then -2 * d - 1 else 2 * d := by
  unfold zigzag intToU32
  split
  · omega
  · omega

/-- The decoder's sign unfolding (encoded.h:124) inverts the encoder's sign
folding (encoded.h:206) on every in-contract delta. -/
lemma unzigzag_zigzag (d : Int) (h1 : -(2 ^ 30) ≤ d) (h2 : d < 2 ^ 30) :
    unzigzag (zigzag d) = d := by
  have hz := zigzag_eq d h1 h2
  simp only [unzigzag, Nat.and_one_is_mod, Nat.shiftRight_eq_div_pow, not_int_eq, pow_one]
  split
  · rename_i h
    split at hz <;> omega
  · rename_i h
    split at hz <;> omega

lemma serializeGo_ne_nil (fuel z : Nat) : serializeGo fuel z ≠ [] := by
  cases fuel with
  | zero => simp [serializeGo]
  | succ f => unfold serializeGo; split <;> simp

lemma serializeGo_length_pos (fuel z : Nat) : 1 ≤ (serializeGo fuel z).length :=
  List.length_pos.mpr (serializeGo_ne_nil fuel z)

lemma lor_thirtytwo : ∀ c : Nat, c < 32 → 32 ||| c = 32 + c := by decide

/-- The continuation byte written by the loop (encoded.h:209), in arithmetic
form. -/
lemma contByte_eq (z : Nat) : (0x20 ||| (z &&& 0x1f)) + 63 = 95 + z % 32 := by
  rw [show (0x1f : Nat) = 2 ^ 5 - 1 from rfl, Nat.and_pow_two_sub_one_eq_mod,
    lor_thirtytwo _ (Nat.mod_lt _ (by norm_num))]
  omega

/-- Unfolding equation of `next5Go` on a non-empty buffer. -/
lemma next5Go_cons (b : Nat) (rest : List Nat) (shift result : Nat) :
    next5Go (b :: rest) shift result =
      if 0x20 ≤ charToInt b - 63 then
        next5Go rest (shift + 5) (result + (((charToInt b - 63) % 32).toNat <<< shift))
      else .ok (result + (((charToInt b - 63) % 32).toNat <<< shift), rest) := rfl

/-- Decoding inverts serialization chunk by chunk: reading the bytes of
`serializeGo fuel z` folds exactly `z`, shifted into place, into the
accumulated result, and leaves the cursor right after them. -/
lemma next5Go_serializeGo :
    ∀ (fuel z : Nat), z ≤ fuel → ∀ (rest : List Nat) (shift acc : Nat),
      next5Go (serializeGo fuel z ++ rest) shift acc = .ok (acc + z * 2 ^ shift, rest) := by
  intro fuel
  induction fuel with
  | zero =>
    intro z hz rest shift acc
    have hz0 : z = 0 := Nat.le_zero.mp hz
    subst hz0
    simp [serializeGo, next5Go, charToInt]
  | succ f ih =>
    intro z hz rest shift acc
    unfold serializeGo
    by_cases h32 : 0x20 ≤ z
    · rw [if_pos h32, contByte_eq, List.cons_append, next5Go_cons]
      have hmod : z % 32 < 32 := Nat.mod_lt _ (by norm_num)
      rw [show charToInt (95 + z % 32) = (95 + z % 32 : Nat) from if_pos (by omega)]
      rw [if_pos (by push_cast; omega)]
      have hchunk : ((((95 + z % 32 : Nat) : Int) - 63) % 32).toNat = z % 32 := by
        push_cast
        omega
      rw [hchunk]
      have hdiv : z >>> 5 ≤ f := by
        rw [Nat.shiftRight_eq_div_pow]
        have : z / 2 ^ 5 < z := Nat.div_lt_self (by omega) (by norm_num)
        omega
      rw [ih (z >>> 5) hdiv rest (shift + 5) (acc + (z % 32) <<< shift)]
      congr 2
      rw [Nat.shiftLeft_eq, Nat.shiftRight_eq_div_pow, pow_add]
      have hzdm : z = 32 * (z / 32) + z % 32 := (Nat.div_add_mod z 32).symm
      set q := z / 2 ^ 5 with hq
      set r := z % 32 with hr
      rw [show z = 32 * q + r by rw [hq]; norm_num; exact hzdm]
      ring
    · rw [if_neg h32, List.cons_append, List.nil_append, next5Go_cons]
      rw [show charToInt (z + 63) = (z + 63 : Nat) from if_pos (by omega)]
      rw [if_neg (by push_cast; omega)]
      congr 2
      have : (((z + 63 : Nat) : Int) - 63) % 32 = (z : Int) := by
        push_cast
        omega
      rw [this, Int.toNat_natCast, Nat.shiftLeft_eq]

/-- `Shape5Decoder::next` inverts `serialize` on every in-contract delta, and
leaves the cursor exactly past the serialized sample. -/
lemma next5_serialize (prev d : Int) (rest : List Nat)
    (h1 : -(2 ^ 30) ≤ d) (h2 : d < 2 ^ 30) :
    next5 prev (serialize d ++ rest) = .ok (prev + d, rest) := by
  unfold next5 serialize
  rw [next5Go_serializeGo (zigzag d) (zigzag d) le_rfl rest 0 0]
  simp only [pow_zero, mul_one, Nat.zero_add]
  rw [unzigzag_zigzag d h1 h2]

lemma floor_one_half : ⌊(1 / 2 : ℚ)⌋ = 0 := by norm_num

/-- `round` is the identity on integral values. -/
lemma cRound_intCast (a : Int) : cRound (a : ℚ) = a := by
  unfold cRound
  split
  · rw [show -(a : ℚ) + 1 / 2 = ((-a : Int) : ℚ) + 1 / 2 by push_cast; ring,
      Int.floor_int_add, floor_one_half]
    ring
  · rw [show ((a : ℚ) + 1 / 2) = ((a : Int) : ℚ) + 1 / 2 from rfl,
      Int.floor_int_add, floor_one_half]
    ring

/-- `round` sends halves away from zero. -/
lemma cRound_half (n : Int) : cRound ((n : ℚ) + 1 / 2) = if 0 ≤ n then n + 1 else n := by
  rcases le_or_lt 0 n with h | h
  · have hn : (0 : ℚ) ≤ (n : ℚ) := by exact_mod_cast h
    rw [cRound, if_neg (by linarith), if_pos h]
    rw [show (n : ℚ) + 1 / 2 + 1 / 2 = ((n + 1 : Int) : ℚ) by push_cast; ring,
      Int.floor_intCast]
  · have hn1 : n ≤ -1 := by omega
    have hn : (n : ℚ) ≤ -1 := by exact_mod_cast hn1
    rw [cRound, if_pos (by linarith), if_neg (by omega)]
    rw [show -((n : ℚ) + 1 / 2) + 1 / 2 = ((-n : Int) : ℚ) by push_cast; ring,
      Int.floor_intCast]
    ring

/-- Unfolding equation of `decodeGo` with positive fuel. -/
lemma decodeGo_succ (fuel : Nat) (s : Shape5Decoder) (c : List Point) :
    decodeGo (fuel + 1) s c =
      if s.empty then .ok c
      else
        match s.pop with
        | (.error e, _) => .error e
        | (.ok p, s') => decodeGo fuel s' (c ++ [p]) := rfl

/-- A successful `next` consumed at least one byte: the remaining buffer is a
proper suffix of the input buffer. -/
lemma next5Go_ok_consumed :
    ∀ (buf : List Nat) (shift acc r : Nat) (rest : List Nat),
      next5Go buf shift acc = .ok (r, rest) → ∃ t, t ≠ [] ∧ t ++ rest = buf := by
  intro buf
  induction buf with
  | nil => intro shift acc r rest h; simp [next5Go] at h
  | cons b bs ih =>
    intro shift acc r rest h
    rw [next5Go_cons] at h
    split at h
    · obtain ⟨t, ht1, ht2⟩ := ih _ _ _ _ h
      exact ⟨b :: t, by simp, by simp [ht2]⟩
    · simp only [Except.ok.injEq, Prod.mk.injEq] at h
      exact ⟨[b], by simp, by simp [h.2]⟩

lemma next5_ok_consumed (prev : Int) (buf : List Nat) (v : Int) (rest : List Nat)
    (h : next5 prev buf = .ok (v, rest)) : ∃ t, t ≠ [] ∧ t ++ rest = buf := by
  unfold next5 at h
  cases hgo : next5Go buf 0 0 with
  | error e => rw [hgo] at h; exact absurd h (by simp)
  | ok pr =>
    rw [hgo] at h
    obtain ⟨r0, rest0⟩ := pr
    simp only [Except.ok.injEq, Prod.mk.injEq] at h
    exact h.2 ▸ next5Go_ok_consumed buf 0 0 r0 rest0 hgo

/-- `next` fails exactly by exhausting the buffer, so an error means the whole
buffer was consumed; in particular a failing `next5Go` call never returns a
value. -/
lemma next5Go_cont_error :
    ∀ (buf : List Nat) (shift acc : Nat), buf ≠ [] →
      (∀ b ∈ buf, 0x20 ≤ charToInt b - 63) →
      next5Go buf shift acc = .error "Bad encoded polyline" := by
  intro buf
  induction buf with
  | nil => intro _ _ h; exact absurd rfl h
  | cons b bs ih =>
    intro shift acc _ hall
    rw [next5Go_cons, if_pos (hall b (List.mem_cons_self b bs))]
    cases bs with
    | nil => rfl
    | cons b' bs' =>
      exact ih _ _ (by simp) (fun x hx => hall x (List.mem_cons_of_mem b hx))

/-- `pop` when both samples decode: latitude from the front of the buffer
against the latitude accumulator, then longitude from the remainder against
the longitude accumulator. -/
lemma pop_ok (s : Shape5Decoder) (a o : Int) (rest1 rest2 : List Nat)
    (h1 : next5 s.lat s.buf = .ok (a, rest1))
    (h2 : next5 s.lon rest1 = .ok (o, rest2)) :
    s.pop = (.ok ((o : ℚ) * s.prec, (a : ℚ) * s.prec), ⟨rest2, a, o, s.prec⟩) := by
  simp only [Shape5Decoder.pop, h1, h2]

/-- `pop` when the latitude sample already fails: no accumulator moves, the
cursor is at the end. -/
lemma pop_err_lat (s : Shape5Decoder) (e : String)
    (h1 : next5 s.lat s.buf = .error e) :
    s.pop = (.error e, { s with buf := [] }) := by
  simp only [Shape5Decoder.pop, h1]

/-- `pop` when the latitude sample decodes but the longitude sample fails:
the latitude accumulator has already advanced. -/
lemma pop_err_lon (s : Shape5Decoder) (a : Int) (rest1 : List Nat) (e : String)
    (h1 : next5 s.lat s.buf = .ok (a, rest1))
    (h2 : next5 s.lon rest1 = .error e) :
    s.pop = (.error e, { s with buf := [], lat := a }) := by
  simp only [Shape5Decoder.pop, h1, h2]

/-- `pop` on a buffer holding exactly the two serialized samples of one point
decodes that point and updates both accumulators, leaving `rest`. -/
lemma pop_serialize (l o dlat dlon : Int) (prec : ℚ) (rest : List Nat)
    (h1 : -(2 ^ 30) ≤ dlat) (h2 : dlat < 2 ^ 30)
    (h3 : -(2 ^ 30) ≤ dlon) (h4 : dlon < 2 ^ 30) :
    Shape5Decoder.pop ⟨serialize dlat ++ serialize dlon ++ rest, l, o, prec⟩ =
      (.ok (((o + dlon : Int) : ℚ) * prec, ((l + dlat : Int) : ℚ) * prec),
       ⟨rest, l + dlat, o + dlon, prec⟩) := by
  refine pop_ok _ (l + dlat) (o + dlon) (serialize dlon ++ rest) rest ?_ ?_
  · show next5 l ((serialize dlat ++ serialize dlon) ++ rest) = _
    rw [List.append_assoc]
    exact next5_serialize l dlat (serialize dlon ++ rest) h1 h2
  · exact next5_serialize o dlon rest h3 h4

/-- Unfolding equation of the encode loop (encoded.h:221-231): scale and
round, serialize the latitude delta first, then the longitude delta, then
continue with the just-computed absolute integers as the previous values. -/
lemma encodeGo_cons (p ll lo : Int) (pt : Point) (ps : List Point) :
    encodeGo p ll lo (pt :: ps) =
      serialize (cRound (pt.2 * (p : ℚ)) - ll) ++ serialize (cRound (pt.1 * (p : ℚ)) - lo) ++
        encodeGo p (cRound (pt.2 * (p : ℚ))) (cRound (pt.1 * (p : ℚ))) ps := rfl

/-- Round-trip of the encode loop against the decode loop: starting from
equal running accumulators on both sides and in-contract scaled coordinates,
decoding the encoded byte stream appends exactly the original points. -/
lemma decodeGo_encodeGo (p : Int) (hp : 0 < p) :
    ∀ (pts : List Point) (lastLat lastLon : Int) (fuel : Nat) (acc : List Point),
      (encodeGo p lastLat lastLon pts).length ≤ fuel →
      -(2 ^ 29) < lastLat → lastLat < 2 ^ 29 →
      -(2 ^ 29) < lastLon → lastLon < 2 ^ 29 →
      (∀ pt ∈ pts, ∃ a b : Int, pt.1 = (a : ℚ) / (p : ℚ) ∧ pt.2 = (b : ℚ) / (p : ℚ) ∧
        -(2 ^ 29) < a ∧ a < 2 ^ 29 ∧ -(2 ^ 29) < b ∧ b < 2 ^ 29) →
      decodeGo fuel ⟨encodeGo p lastLat lastLon pts, lastLat, lastLon, 1 / (p : ℚ)⟩ acc =
        .ok (acc ++ pts) := by
  intro pts
  induction pts with
  | nil =>
    intro lastLat lastLon fuel acc _ _ _ _ _ _
    cases fuel <;> simp [encodeGo, decodeGo, Shape5Decoder.empty]
  | cons pt ps ih =>
    intro lastLat lastLon fuel acc hfuel hll1 hll2 hlo1 hlo2 hrep
    obtain ⟨a, b, ha1, hb1, ha2, ha3, hb2, hb3⟩ := hrep pt (List.mem_cons_self pt ps)
    have hpne : (p : ℚ) ≠ 0 := by positivity
    have hlon : cRound (pt.1 * (p : ℚ)) = a := by
      rw [ha1, div_mul_cancel₀ _ hpne, cRound_intCast]
    have hlat : cRound (pt.2 * (p : ℚ)) = b := by
      rw [hb1, div_mul_cancel₀ _ hpne, cRound_intCast]
    have henc : encodeGo p lastLat lastLon (pt :: ps) =
        serialize (b - lastLat) ++ serialize (a - lastLon) ++ encodeGo p b a ps := by
      rw [encodeGo_cons, hlon, hlat]
    rw [henc] at hfuel ⊢
    have hlen1 := serializeGo_length_pos (zigzag (b - lastLat)) (zigzag (b - lastLat))
    have hlen2 := serializeGo_length_pos (zigzag (a - lastLon)) (zigzag (a - lastLon))
    have hlen : 2 + (encodeGo p b a ps).length ≤ fuel := by
      have := hfuel
      simp only [List.length_append] at this
      unfold serialize at this
      omega
    obtain ⟨f, rfl⟩ : ∃ f, fuel = f + 1 := ⟨fuel - 1, by omega⟩
    rw [decodeGo_succ]
    have hbufne : serialize (b - lastLat) ++ serialize (a - lastLon) ++ encodeGo p b a ps ≠ [] := by
      simp only [ne_eq, List.append_assoc, List.append_eq_nil, not_and]
      intro h; exact absurd h (serializeGo_ne_nil _ _)
    rw [if_neg (by simpa [Shape5Decoder.empty, List.isEmpty_iff] using hbufne)]
    rw [pop_serialize lastLat lastLon (b - lastLat) (a - lastLon) (1 / (p : ℚ))
      (encodeGo p b a ps) (by omega) (by omega) (by omega) (by omega)]
    have hlat' : lastLat + (b - lastLat) = b := by ring
    have hlon' : lastLon + (a - lastLon) = a := by ring
    rw [hlat', hlon']
    have hpt : (((a : Int) : ℚ) * (1 / (p : ℚ)), ((b : Int) : ℚ) * (1 / (p : ℚ))) = pt := by
      rw [mul_one_div, mul_one_div, ← ha1, ← hb1]
    rw [hpt]
    show decodeGo f ⟨encodeGo p b a ps, b, a, 1 / (p : ℚ)⟩ (acc ++ [pt]) =
      .ok (acc ++ pt :: ps)
    rw [ih b a f (acc ++ [pt]) (by omega) hb2 hb3 ha2 ha3
      (fun q hq => hrep q (List.mem_cons_of_mem pt hq))]
    simp

/-- Unfolding equation of `decodeVecGo` with positive fuel. -/
lemma decodeVecGo_succ (fuel : Nat) (s : Shape5Decoder) (c : Array Point) :
    decodeVecGo (fuel + 1) s c =
      if s.empty then .ok c
      else
        match s.pop with
        | (.error e, _) => .error e
        | (.ok p, s') => decodeVecGo fuel s' (c.push p) := rfl

/-- The vector loop and the plain-list loop compute the same sequence: the
`Array` accumulation refines the `List` accumulation byte for byte. -/
lemma decodeVecGo_toList :
    ∀ (fuel : Nat) (s : Shape5Decoder) (c : Array Point),
      (decodeVecGo fuel s c).map Array.toList = decodeGo fuel s c.toList := by
  intro fuel
  induction fuel with
  | zero => intro s c; rfl
  | succ f ihf =>
    intro s c
    rw [decodeGo_succ, decodeVecGo_succ]
    by_cases he : s.empty
    · rw [if_pos he, if_pos he]; rfl
    · rw [if_neg he, if_neg he]
      rcases hps : s.pop with ⟨r, s'⟩
      cases r with
      | error e => rfl
      | ok p =>
        show (decodeVecGo f s' (c.push p)).map Array.toList = decodeGo f s' (c.toList ++ [p])
        rw [← Array.push_toList]
        exact ihf s' (c.push p)

/-- The cursor movement of a successful sample decode, seen by `skipSample`. -/
lemma skipSample_of_next5Go :
    ∀ (buf : List Nat) (shift acc r : Nat) (rest : List Nat),
      next5Go buf shift acc = .ok (r, rest) → skipSample buf = some rest := by
  intro buf
  induction buf with
  | nil => intro shift acc r rest h; simp [next5Go] at h
  | cons b bs ih =>
    intro shift acc r rest h
    rw [next5Go_cons] at h
    unfold skipSample
    split
    · rename_i hc
      rw [if_pos hc] at h
      exact ih _ _ _ _ h
    · rename_i hc
      rw [if_neg hc] at h
      simp only [Except.ok.injEq, Prod.mk.injEq] at h
      rw [h.2]

/-- A successful `next` call, seen by `skipSample`. -/
lemma skipSample_of_next5 (prev : Int) (buf : List Nat) (v : Int) (rest : List Nat)
    (h : next5 prev buf = .ok (v, rest)) : skipSample buf = some rest := by
  unfold next5 at h
  cases hgo : next5Go buf 0 0 with
  | error e => rw [hgo] at h; exact absurd h (by simp)
  | ok pr =>
    rw [hgo] at h
    obtain ⟨r0, rest0⟩ := pr
    simp only [Except.ok.injEq, Prod.mk.injEq] at h
    exact h.2 ▸ skipSample_of_next5Go buf 0 0 r0 rest0 hgo

lemma skipSample_consumed :
    ∀ (buf rest : List Nat), skipSample buf = some rest → rest.length < buf.length := by
  intro buf
  induction buf with
  | nil => intro rest h; simp [skipSample] at h
  | cons b bs ih =>
    intro rest h
    unfold skipSample at h
    split at h
    · have := ih rest h
      simp only [List.length_cons]
      omega
    · obtain rfl := Option.some.inj h
      simp

lemma skipSample_ne_nil (buf rest : List Nat) (h : skipSample buf = some rest) : buf ≠ [] := by
  intro hnil
  rw [hnil] at h
  simp [skipSample] at h

/-- Inversion of a successful `pop`: both samples decoded, and the cursor
passed exactly two complete samples. -/
lemma pop_ok_inv (s : Shape5Decoder) (p : Point) (s' : Shape5Decoder)
    (h : s.pop = (.ok p, s')) :
    ∃ rest1, skipSample s.buf = some rest1 ∧ skipSample rest1 = some s'.buf ∧
      s'.buf.length + 2 ≤ s.buf.length := by
  cases hn1 : next5 s.lat s.buf with
  | error e => rw [pop_err_lat s e hn1] at h; simp at h
  | ok pr1 =>
    obtain ⟨a, rest1⟩ := pr1
    cases hn2 : next5 s.lon rest1 with
    | error e => rw [pop_err_lon s a rest1 e hn1 hn2] at h; simp at h
    | ok pr2 =>
      obtain ⟨o, rest2⟩ := pr2
      rw [pop_ok s a o rest1 rest2 hn1 hn2] at h
      simp only [Prod.mk.injEq] at h
      have hbuf : s'.buf = rest2 := by rw [← h.2]
      obtain ⟨t1, ht1, ht1e⟩ := next5_ok_consumed _ _ _ _ hn1
      obtain ⟨t2, ht2, ht2e⟩ := next5_ok_consumed _ _ _ _ hn2
      refine ⟨rest1, skipSample_of_next5 _ _ _ _ hn1, hbuf ▸ skipSample_of_next5 _ _ _ _ hn2, ?_⟩
      have l1 : rest1.length < s.buf.length := by
        rw [← ht1e]
        simp only [List.length_append]
        have : 1 ≤ t1.length := List.length_pos.mpr ht1
        omega
      have l2 : rest2.length < rest1.length := by
        rw [← ht2e]
        simp only [List.length_append]
        have : 1 ≤ t2.length := List.length_pos.mpr ht2
        omega
      rw [hbuf]
      omega

/-- A failed `pop` leaves the cursor at the end of the buffer. -/
lemma pop_err_inv (s : Shape5Decoder) (e : String) (s' : Shape5Decoder)
    (h : s.pop = (.error e, s')) : s'.buf = [] := by
  cases hn1 : next5 s.lat s.buf with
  | error e1 =>
    rw [pop_err_lat s e1 hn1] at h
    simp only [Prod.mk.injEq] at h
    rw [← h.2]
  | ok pr1 =>
    obtain ⟨a, rest1⟩ := pr1
    cases hn2 : next5 s.lon rest1 with
    | error e2 =>
      rw [pop_err_lon s a rest1 e2 hn1 hn2] at h
      simp only [Prod.mk.injEq] at h
      rw [← h.2]
    | ok pr2 =>
      obtain ⟨o, rest2⟩ := pr2
      rw [pop_ok s a o rest1 rest2 hn1 hn2] at h
      simp at h

lemma skipSample_suffix :
    ∀ (buf rest : List Nat), skipSample buf = some rest → ∃ t, t ++ rest = buf := by
  intro buf
  induction buf with
  | nil => intro rest h; simp [skipSample] at h
  | cons b bs ih =>
    intro rest h
    unfold skipSample at h
    split at h
    · obtain ⟨t, ht⟩ := ih rest h
      exact ⟨b :: t, by simp [ht]⟩
    · obtain rfl := Option.some.inj h
      exact ⟨[b], rfl⟩

/-- Whatever `pop` does, the new buffer is a suffix of the old one. -/
lemma pop_suffix (s : Shape5Decoder) (r : Except String Point) (s' : Shape5Decoder)
    (h : s.pop = (r, s')) :
    (∃ t, t ++ s'.buf = s.buf) ∧ s'.buf.length ≤ s.buf.length := by
  cases r with
  | error e =>
    have hnil := pop_err_inv s e s' h
    rw [hnil]
    exact ⟨⟨s.buf, by simp⟩, by simp⟩
  | ok p =>
    obtain ⟨rest1, h1, h2, hlen⟩ := pop_ok_inv s p s' h
    obtain ⟨t1, ht1⟩ := skipSample_suffix _ _ h1
    obtain ⟨t2, ht2⟩ := skipSample_suffix _ _ h2
    exact ⟨⟨t1 ++ t2, by rw [List.append_assoc, ht2, ht1]⟩, by omega⟩

/-- The decode loop only ever appends: the result extends the accumulator. -/
lemma decodeGo_ok_append :
    ∀ (fuel : Nat) (s : Shape5Decoder) (c pts : List Point),
      decodeGo fuel s c = .ok pts → ∃ t, pts = c ++ t := by
  intro fuel
  induction fuel with
  | zero =>
    intro s c pts h
    obtain rfl : c = pts := Except.ok.inj h
    exact ⟨[], by simp⟩
  | succ f ihf =>
    intro s c pts h
    rw [decodeGo_succ] at h
    by_cases he : s.empty
    · rw [if_pos he] at h
      obtain rfl : c = pts := Except.ok.inj h
      exact ⟨[], by simp⟩
    · rw [if_neg he] at h
      rcases hps : s.pop with ⟨r, s'⟩
      rw [hps] at h
      cases r with
      | error e => simp at h
      | ok p =>
        obtain ⟨t, ht⟩ := ihf s' (c ++ [p]) pts h
        exact ⟨p :: t, by simpa using ht⟩

/-- Unfolding equation of `countSamplesGo` on a non-empty buffer with
positive fuel. -/
lemma countSamplesGo_succ_cons (f2 b : Nat) (bs : List Nat) :
    countSamplesGo (f2 + 1) (b :: bs) =
      match skipSample (b :: bs) with
      | none => none
      | some rest => (countSamplesGo f2 rest).map (· + 1) := rfl

lemma empty_iff_nil (s : Shape5Decoder) : s.empty = true ↔ s.buf = [] := by
  unfold Shape5Decoder.empty
  exact List.isEmpty_iff

/-- A successful decode walked an exact whole number of samples — two per
decoded point. -/
lemma decodeGo_count :
    ∀ (fuel : Nat) (s : Shape5Decoder) (c pts : List Point),
      s.buf.length ≤ fuel → decodeGo fuel s c = .ok pts →
      ∀ f2, s.buf.length ≤ f2 → countSamplesGo f2 s.buf = some (2 * (pts.length - c.length)) := by
  intro fuel
  induction fuel with
  | zero =>
    intro s c pts hle h f2 _
    have hnil : s.buf = [] := List.length_eq_zero.mp (by omega)
    obtain rfl : c = pts := Except.ok.inj h
    rw [hnil]
    cases f2 <;> simp [countSamplesGo]
  | succ f ihf =>
    intro s c pts hle h f2 hf2
    rw [decodeGo_succ] at h
    by_cases he : s.empty
    · have hnil := (empty_iff_nil s).mp he
      rw [if_pos he] at h
      obtain rfl : c = pts := Except.ok.inj h
      rw [hnil]
      cases f2 <;> simp [countSamplesGo]
    · rw [if_neg he] at h
      rcases hps : s.pop with ⟨r, s'⟩
      rw [hps] at h
      cases r with
      | error e => simp at h
      | ok p =>
        obtain ⟨rest1, hs1, hs2, hlen⟩ := pop_ok_inv s p s' hps
        have hlen1 := skipSample_consumed _ _ hs1
        have hlen2 := skipSample_consumed _ _ hs2
        obtain ⟨t, rfl⟩ := decodeGo_ok_append f s' (c ++ [p]) pts h
        have hcd := ihf s' (c ++ [p]) _ (by omega) h (f2 - 2) (by omega)
        have hsne : s.buf ≠ [] := fun hn => he ((empty_iff_nil s).mpr hn)
        obtain ⟨b0, bs0, hb0⟩ := List.exists_cons_of_ne_nil hsne
        obtain ⟨b1, bs1, hb1⟩ := List.exists_cons_of_ne_nil (skipSample_ne_nil _ _ hs2)
        obtain ⟨f2'', rfl⟩ : ∃ k, f2 = k + 2 := ⟨f2 - 2, by omega⟩
        rw [hb0, show f2'' + 2 = f2'' + 1 + 1 from rfl, countSamplesGo_succ_cons, ← hb0, hs1]
        show (countSamplesGo (f2'' + 1) rest1).map (· + 1) =
          some (2 * ((c ++ [p] ++ t).length - c.length))
        rw [hb1, countSamplesGo_succ_cons, ← hb1, hs2]
        show ((countSamplesGo f2'' s'.buf).map (· + 1)).map (· + 1) =
          some (2 * ((c ++ [p] ++ t).length - c.length))
        rw [show f2'' + 2 - 2 = f2'' by omega] at hcd
        rw [hcd]
        simp only [Option.map_some']
        congr 1
        simp only [List.length_append, List.length_cons, List.length_nil]
        omega

/-- The decode loop on an exhausted buffer returns the accumulator. -/
lemma decodeGo_nil (fuel : Nat) (s : Shape5Decoder) (c : List Point) (h : s.buf = []) :
    decodeGo fuel s c = .ok c := by
  cases fuel with
  | zero => rfl
  | succ f => rw [decodeGo_succ, if_pos ((empty_iff_nil s).mpr h)]

/-- Decoding a buffer holding exactly one point's two samples. -/
lemma decode_pair (dlat dlon : Int) (prec : ℚ)
    (h1 : -(2 ^ 30) ≤ dlat) (h2 : dlat < 2 ^ 30)
    (h3 : -(2 ^ 30) ≤ dlon) (h4 : dlon < 2 ^ 30) :
    decode (serialize dlat ++ serialize dlon) prec =
      .ok [((dlon : ℚ) * prec, (dlat : ℚ) * prec)] := by
  unfold decode Shape5Decoder.init
  have hl1 := serializeGo_length_pos (zigzag dlat) (zigzag dlat)
  have hl2 := serializeGo_length_pos (zigzag dlon) (zigzag dlon)
  have hlen : 1 ≤ (serialize dlat ++ serialize dlon).length := by
    unfold serialize
    simp only [List.length_append]
    omega
  obtain ⟨k, hk⟩ : ∃ k, (serialize dlat ++ serialize dlon).length = k + 1 :=
    ⟨(serialize dlat ++ serialize dlon).length - 1, by omega⟩
  rw [hk, decodeGo_succ]
  have hne : serialize dlat ++ serialize dlon ≠ [] := by
    intro hx
    rw [hx] at hlen
    simp at hlen
  rw [if_neg (fun hemp => hne ((empty_iff_nil _).mp hemp))]
  have hpop := pop_serialize 0 0 dlat dlon prec [] h1 h2 h3 h4
  rw [List.append_nil] at hpop
  rw [hpop]
  show decodeGo k ⟨[], 0 + dlat, 0 + dlon, prec⟩
      ([] ++ [(((0 + dlon : Int) : ℚ) * prec, ((0 + dlat : Int) : ℚ) * prec)]) = _
  rw [decodeGo_nil k _ _ rfl]
  norm_num

/-- All bytes emitted by the serializer loop are printable ASCII 63..126. -/
lemma serializeGo_range :
    ∀ (fuel z : Nat), z ≤ fuel → ∀ b ∈ serializeGo fuel z, 63 ≤ b ∧ b ≤ 126 := by
  intro fuel
  induction fuel with
  | zero =>
    intro z hz b hb
    obtain rfl : z = 0 := Nat.le_zero.mp hz
    simp only [serializeGo, List.mem_singleton] at hb
    omega
  | succ f ih =>
    intro z hz b hb
    unfold serializeGo at hb
    by_cases h32 : 0x20 ≤ z
    · rw [if_pos h32, contByte_eq] at hb
      rcases List.mem_cons.mp hb with hb0 | hbs
      · have : z % 32 < 32 := Nat.mod_lt _ (by norm_num)
        omega
      · refine ih (z >>> 5) ?_ b hbs
        rw [Nat.shiftRight_eq_div_pow]
        have : z / 2 ^ 5 < z := Nat.div_lt_self (by omega) (by norm_num)
        omega
    · rw [if_neg h32] at hb
      simp only [List.mem_singleton] at hb
      omega

/-- Byte-level layout of the serializer output: the i-th byte carries the
i-th 5-bit chunk of the zig-zagged value, least significant chunk first, with
the `0x20` continuation flag on every byte but the last, all offset by 63. -/
lemma serializeGo_get :
    ∀ (fuel z : Nat), z ≤ fuel → ∀ i : Nat, i < (serializeGo fuel z).length →
      (serializeGo fuel z).getD i 0 =
        (if i + 1 = (serializeGo fuel z).length then (z >>> (5 * i)) &&& 0x1f
         else 0x20 ||| ((z >>> (5 * i)) &&& 0x1f)) + 63 := by
  intro fuel
  induction fuel with
  | zero =>
    intro z hz i hi
    obtain rfl : z = 0 := Nat.le_zero.mp hz
    have hi' : i = 0 := by simpa [serializeGo] using hi
    subst hi'
    simp [serializeGo]
  | succ f ih =>
    intro z hz i hi
    have hunf : serializeGo (f + 1) z =
        if 0x20 ≤ z then ((0x20 ||| (z &&& 0x1f)) + 63) :: serializeGo f (z >>> 5)
        else [z + 63] := rfl
    by_cases h32 : 0x20 ≤ z
    · have hstep : serializeGo (f + 1) z =
          ((0x20 ||| (z &&& 0x1f)) + 63) :: serializeGo f (z >>> 5) := by
        rw [hunf, if_pos h32]
      have hdiv : z >>> 5 ≤ f := by
        rw [Nat.shiftRight_eq_div_pow]
        have : z / 2 ^ 5 < z := Nat.div_lt_self (by omega) (by norm_num)
        omega
      have htail := serializeGo_length_pos f (z >>> 5)
      rw [hstep] at hi ⊢
      rcases i with _ | j
      · rw [List.getD_cons_zero,
          if_neg (by simp only [List.length_cons]; omega)]
        rw [Nat.mul_zero, Nat.shiftRight_zero]
      · rw [List.getD_cons_succ]
        have hj : j < (serializeGo f (z >>> 5)).length := by
          simpa using hi
        rw [ih (z >>> 5) hdiv j hj]
        have hsh : (z >>> 5) >>> (5 * j) = z >>> (5 * (j + 1)) := by
          rw [← Nat.shiftRight_add]
          congr 1
          ring
        rw [hsh]
        by_cases hlast : j + 1 = (serializeGo f (z >>> 5)).length
        · rw [if_pos hlast, if_pos (by simp only [List.length_cons]; omega)]
        · rw [if_neg hlast, if_neg (by simp only [List.length_cons]; omega)]
    · have hstep : serializeGo (f + 1) z = [z + 63] := by
        rw [hunf, if_neg h32]
      rw [hstep] at hi ⊢
      have hi' : i = 0 := by simpa using hi
      subst hi'
      have hz' : z &&& 0x1f = z := by
        rw [show (0x1f : Nat) = 2 ^ 5 - 1 from rfl, Nat.and_pow_two_sub_one_eq_mod]
        omega
      rw [List.getD_cons_zero, if_pos (by simp), Nat.mul_zero, Nat.shiftRight_zero, hz']

/-- The reference point of the spec's single-point vector, encoded: latitude
38.58 scales to 3858000 and longitude -122.483696 rounds to -12248370. -/
lemma encode_refpoint :
    encode [((-122483696 : ℚ) / 1000000, (3858 : ℚ) / 100)] 100000 =
      serialize 3858000 ++ serialize (-12248370) := by
  have cLat : cRound ((3858 : ℚ) / 100 * ((100000 : Int) : ℚ)) = 3858000 := by
    rw [show (3858 : ℚ) / 100 * ((100000 : Int) : ℚ) = ((3858000 : Int) : ℚ) by
      push_cast; norm_num, cRound_intCast]
  have cLon : cRound ((-122483696 : ℚ) / 1000000 * ((100000 : Int) : ℚ)) = -12248370 := by
    have hq : (-122483696 : ℚ) / 1000000 * ((100000 : Int) : ℚ) = -61241848 / 5 := by
      push_cast
      norm_num
    rw [hq, cRound, if_pos (by norm_num)]
    have hfl : ⌊-(-61241848 / 5 : ℚ) + 1 / 2⌋ = 12248370 := by
      rw [show -(-61241848 / 5 : ℚ) + 1 / 2 = 122483701 / 10 by norm_num, Int.floor_eq_iff]
      norm_num
    rw [hfl]
  unfold encode
  rw [encodeGo_cons, cLat, cLon]
  norm_num [encodeGo]

/-! ### Claim theorems -/

/-- C1: for every finite sequence of points whose coordinates are
representable at the chosen precision (and in the codec's 32-bit contract),
decoding the Varint5 encoding with the matching precision succeeds and yields
a sequence of the same length whose coordinates each differ from the original
by at most half the decode precision. -/
theorem spec_c1_roundtrip (pts : List Point) (p : Int) (hp : 0 < p)
    (hrep : ∀ pt ∈ pts, ∃ a b : Int, pt.1 = (a : ℚ) / (p : ℚ) ∧ pt.2 = (b : ℚ) / (p : ℚ) ∧
      -(2 ^ 29) < a ∧ a < 2 ^ 29 ∧ -(2 ^ 29) < b ∧ b < 2 ^ 29) :
    ∃ pts', decode (encode pts p) (1 / (p : ℚ)) = .ok pts' ∧
      pts'.length = pts.length ∧
      List.Forall₂ (fun pt pt' : Point => |pt'.1 - pt.1| ≤ 1 / (2 * (p : ℚ)) ∧
        |pt'.2 - pt.2| ≤ 1 / (2 * (p : ℚ))) pts pts' := by
  have hpq : (0 : ℚ) < (p : ℚ) := by exact_mod_cast hp
  refine ⟨pts, ?_, rfl, ?_⟩
  · unfold decode encode Shape5Decoder.init
    have := decodeGo_encodeGo p hp pts 0 0 (encodeGo p 0 0 pts).length []
      le_rfl (by norm_num) (by norm_num) (by norm_num) (by norm_num) hrep
    simpa using this
  · rw [List.forall₂_same]
    intro pt _
    have hb : (0 : ℚ) ≤ 1 / (2 * (p : ℚ)) := by positivity
    exact ⟨by rw [sub_self, abs_zero]; exact hb, by rw [sub_self, abs_zero]; exact hb⟩

/-- Witness for C1 at the concrete sequence [(1e-5, 2e-5)] and precision 1e5. -/
theorem spec_c1_witness :
    0 < (100000 : Int) ∧
    (∃ pts', decode (encode [((1 : ℚ) / 100000, (2 : ℚ) / 100000)] 100000)
        (1 / ((100000 : Int) : ℚ)) = .ok pts' ∧
      pts'.length = ([((1 : ℚ) / 100000, (2 : ℚ) / 100000)] : List Point).length ∧
      List.Forall₂ (fun pt pt' : Point =>
        |pt'.1 - pt.1| ≤ 1 / (2 * ((100000 : Int) : ℚ)) ∧
        |pt'.2 - pt.2| ≤ 1 / (2 * ((100000 : Int) : ℚ)))
        [((1 : ℚ) / 100000, (2 : ℚ) / 100000)] pts') :=
  ⟨by norm_num,
   spec_c1_roundtrip [((1 : ℚ) / 100000, (2 : ℚ) / 100000)] 100000 (by norm_num)
     (by
       intro pt hpt
       rw [List.mem_singleton] at hpt
       subst hpt
       exact ⟨1, 2, by norm_num, by norm_num, by norm_num, by norm_num, by norm_num,
         by norm_num⟩)⟩

/-- C2: a decoder starts with both accumulators at zero, and `pop` decodes
the latitude sample first (from the front of the buffer, against the latitude
accumulator), then the longitude sample from the remainder, and returns the
point `(longitude_int * precision, latitude_int * precision)` while storing
both new accumulator values. -/
theorem spec_c2_pop_order :
    (∀ (buf : List Nat) (precision : ℚ),
      (Shape5Decoder.init buf precision).lat = 0 ∧ (Shape5Decoder.init buf precision).lon = 0) ∧
    (∀ (s : Shape5Decoder) (a o : Int) (rest1 rest2 : List Nat),
      next5 s.lat s.buf = .ok (a, rest1) → next5 s.lon rest1 = .ok (o, rest2) →
      s.pop = (.ok ((o : ℚ) * s.prec, (a : ℚ) * s.prec), ⟨rest2, a, o, s.prec⟩)) :=
  ⟨fun _ _ => ⟨rfl, rfl⟩, pop_ok⟩

/-- Witness for C2 on the concrete two-byte buffer [65, 65] (two samples of
delta 1): latitude decodes to 1 from the front, longitude to 1 from the
remainder. -/
theorem spec_c2_witness :
    next5 ((⟨[65, 65], 0, 0, 1⟩ : Shape5Decoder)).lat [65, 65] = .ok (1, [65]) ∧
    next5 ((⟨[65, 65], 0, 0, 1⟩ : Shape5Decoder)).lon [65] = .ok (1, []) ∧
    (⟨[65, 65], 0, 0, 1⟩ : Shape5Decoder).pop =
      (.ok (((1 : Int) : ℚ) * 1, ((1 : Int) : ℚ) * 1), ⟨[], 1, 1, 1⟩) :=
  ⟨rfl, rfl, spec_c2_pop_order.2 ⟨[65, 65], 0, 0, 1⟩ 1 1 [65] [] rfl rfl⟩

/-- C3: the encoder processes points in order, scales by the precision and
rounds halves away from zero, serializes the latitude delta before the
longitude delta, and carries the just-computed absolute integers forward as
the previous values; concretely, [(0,0), (1e-5, 2e-5)] at precision 1e5
serializes deltas lat=2 then lon=1 on the second point. -/
theorem spec_c3_encode_deltas :
    (∀ (p ll lo : Int) (pt : Point) (ps : List Point),
      encodeGo p ll lo (pt :: ps) =
        serialize (cRound (pt.2 * (p : ℚ)) - ll) ++ serialize (cRound (pt.1 * (p : ℚ)) - lo) ++
          encodeGo p (cRound (pt.2 * (p : ℚ))) (cRound (pt.1 * (p : ℚ))) ps) ∧
    (∀ n : Int, cRound ((n : ℚ) + 1 / 2) = if 0 ≤ n then n + 1 else n) ∧
    encode [((0 : ℚ), (0 : ℚ)), ((1 : ℚ) / 100000, (2 : ℚ) / 100000)] 100000 =
      serialize 0 ++ serialize 0 ++ serialize 2 ++ serialize 1 := by
  refine ⟨encodeGo_cons, cRound_half, ?_⟩
  have e0 : cRound ((0 : ℚ) * ((100000 : Int) : ℚ)) = 0 := by
    rw [show (0 : ℚ) * ((100000 : Int) : ℚ) = ((0 : Int) : ℚ) by norm_num, cRound_intCast]
  have e1 : cRound ((1 : ℚ) / 100000 * ((100000 : Int) : ℚ)) = 1 := by
    rw [show (1 : ℚ) / 100000 * ((100000 : Int) : ℚ) = ((1 : Int) : ℚ) by push_cast; norm_num,
      cRound_intCast]
  have e2 : cRound ((2 : ℚ) / 100000 * ((100000 : Int) : ℚ)) = 2 := by
    rw [show (2 : ℚ) / 100000 * ((100000 : Int) : ℚ) = ((2 : Int) : ℚ) by push_cast; norm_num,
      cRound_intCast]
  unfold encode
  rw [encodeGo_cons, e0, encodeGo_cons, e1, e2]
  norm_num [encodeGo]

/-- C4: a buffer whose bytes all carry the continuation flag (so no sample
ever terminates) makes decode fail with the malformed-stream error — no
partial point is returned. -/
theorem spec_c4_malformed (buf : List Nat) (precision : ℚ) (hne : buf ≠ [])
    (hcont : ∀ b ∈ buf, 0x20 ≤ charToInt b - 63) :
    decode buf precision = .error "Bad encoded polyline" := by
  unfold decode Shape5Decoder.init
  obtain ⟨b0, bs0, rfl⟩ := List.exists_cons_of_ne_nil hne
  rw [show (b0 :: bs0).length = bs0.length + 1 from rfl, decodeGo_succ]
  rw [if_neg (fun hemp => hne ((empty_iff_nil _).mp hemp))]
  have herr : next5 0 (b0 :: bs0) = .error "Bad encoded polyline" := by
    unfold next5
    rw [next5Go_cont_error (b0 :: bs0) 0 0 (by simp) hcont]
  rw [pop_err_lat ⟨b0 :: bs0, 0, 0, precision⟩ "Bad encoded polyline" herr]

/-- Witness for C4 on the single continuation-flagged byte 0x5F. -/
theorem spec_c4_witness :
    ([95] : List Nat) ≠ [] ∧ (0x20 : Int) ≤ charToInt 95 - 63 ∧
    decode [95] 1 = .error "Bad encoded polyline" :=
  ⟨by simp, by decide,
   spec_c4_malformed [95] 1 (by simp)
     (by intro b hb; rw [List.mem_singleton] at hb; subst hb; decide)⟩

/-- C5: the encoder's zig-zag transform composed with the decoder's inverse
is the identity on every integer in -1000000..1000000. -/
theorem spec_c5_zigzag_roundtrip (d : Int) (h1 : -1000000 ≤ d) (h2 : d ≤ 1000000) :
    unzigzag (zigzag d) = d :=
  unzigzag_zigzag d (by omega) (by omega)

/-- Witness for C5 at the endpoint -1000000. -/
theorem spec_c5_witness :
    -1000000 ≤ (-1000000 : Int) ∧ (-1000000 : Int) ≤ 1000000 ∧
    unzigzag (zigzag (-1000000)) = -1000000 :=
  ⟨by norm_num, by norm_num, spec_c5_zigzag_roundtrip (-1000000) (by norm_num) (by norm_num)⟩

/-- C6: for every in-contract delta, the serializer emits one byte per 5-bit
chunk of the zig-zagged value, least-significant chunk first, with the 0x20
continuation flag on every byte but the last and the +63 printable offset on
all of them; consequently every emitted byte lies in 63..126. -/
theorem spec_c6_chunks (d : Int) (h1 : -(2 ^ 30) ≤ d) (h2 : d < 2 ^ 30) :
    (∀ i : Nat, i < (serialize d).length →
      (serialize d).getD i 0 =
        (if i + 1 = (serialize d).length then (zigzag d >>> (5 * i)) &&& 0x1f
         else 0x20 ||| ((zigzag d >>> (5 * i)) &&& 0x1f)) + 63) ∧
    (∀ b ∈ serialize d, 63 ≤ b ∧ b ≤ 126) :=
  ⟨serializeGo_get (zigzag d) (zigzag d) le_rfl,
   serializeGo_range (zigzag d) (zigzag d) le_rfl⟩

/-- Witness for C6 at delta -3 (zig-zag 5, one byte 68 = ASCII D). -/
theorem spec_c6_witness :
    -(2 ^ 30) ≤ (-3 : Int) ∧ (-3 : Int) < 2 ^ 30 ∧ 0 < (serialize (-3)).length ∧
    (serialize (-3)).getD 0 0 =
      (if 0 + 1 = (serialize (-3)).length then (zigzag (-3) >>> (5 * 0)) &&& 0x1f
       else 0x20 ||| ((zigzag (-3) >>> (5 * 0)) &&& 0x1f)) + 63 :=
  ⟨by norm_num, by norm_num, by decide,
   (spec_c6_chunks (-3) (by norm_num) (by norm_num)).1 0 (by decide)⟩

/-- C7 as stated is false: the encoded form of [(-122.483696, 38.58)] at
precision 1e5 is not the string "_p~iF~ps|U" (bytes 95,112,126,105,70,126,
112,115,124,85). -/
theorem spec_c7_counterexample :
    encode [((-122483696 : ℚ) / 1000000, (3858 : ℚ) / 100)] 100000 ≠
      [95, 112, 126, 105, 70, 126, 112, 115, 124, 85] := by
  rw [encode_refpoint]
  decide

/-- C7 amended: encoding [(-122.483696, 38.58)] at precision 1e5 then
decoding with precision 1e-5 reproduces the point within 1e-5, but the
encoded form is "_dnjFbrqjV" (bytes 95,100,110,106,70,98,114,113,106,86);
the spec's reference string "_p~iF~ps|U" is the classic encoding of the
different point (lon=-120.2, lat=38.5). -/
theorem spec_c7_single_point :
    encode [((-122483696 : ℚ) / 1000000, (3858 : ℚ) / 100)] 100000 =
      [95, 100, 110, 106, 70, 98, 114, 113, 106, 86] ∧
    (∃ pt : Point,
      decode (encode [((-122483696 : ℚ) / 1000000, (3858 : ℚ) / 100)] 100000) (1 / 100000) =
        .ok [pt] ∧
      |pt.1 - (-122483696 : ℚ) / 1000000| ≤ 1 / 100000 ∧
      |pt.2 - (3858 : ℚ) / 100| ≤ 1 / 100000) ∧
    decode [95, 112, 126, 105, 70, 126, 112, 115, 124, 85] (1 / 100000) =
      .ok [((-1202 : ℚ) / 10, (385 : ℚ) / 10)] := by
  refine ⟨?_, ⟨(((-12248370 : Int) : ℚ) * (1 / 100000), ((3858000 : Int) : ℚ) * (1 / 100000)),
    ?_, ?_, ?_⟩, ?_⟩
  · rw [encode_refpoint]
    decide
  · rw [encode_refpoint,
      decode_pair 3858000 (-12248370) (1 / 100000) (by norm_num) (by norm_num) (by norm_num)
        (by norm_num)]
  · norm_num [abs_le]
  · norm_num [abs_le]
  · rw [show ([95, 112, 126, 105, 70, 126, 112, 115, 124, 85] : List Nat) =
        serialize 3850000 ++ serialize (-12020000) by decide,
      decode_pair 3850000 (-12020000) (1 / 100000) (by norm_num) (by norm_num) (by norm_num)
        (by norm_num)]
    norm_num

/-- C8: the `std::vector` decode specialization (with its capacity
reservation) and the generic specialization decode the same buffer to
identical point sequences. -/
theorem spec_c8_vector_eq (encoded : List Nat) (precision : ℚ) :
    (decodeVec encoded precision).map Array.toList = decode encoded precision :=
  decodeVecGo_toList encoded.length (Shape5Decoder.init encoded precision)
    (Array.mkEmpty (encoded.length / 4))

/-- C9: a buffer ending right after a complete latitude sample makes `pop`
raise the malformed-stream error with the latitude accumulator already
advanced and the cursor at the end; and a successful decode always walks an
even number of complete samples — two per point. -/
theorem spec_c9_odd_sample :
    (∀ (l o : Int) (precision : ℚ) (d : Int), -(2 ^ 30) ≤ d → d < 2 ^ 30 →
      Shape5Decoder.pop ⟨serialize d, l, o, precision⟩ =
        (.error "Bad encoded polyline", ⟨[], l + d, o, precision⟩)) ∧
    (∀ (buf : List Nat) (precision : ℚ) (pts : List Point),
      decode buf precision = .ok pts → countSamples buf = some (2 * pts.length)) := by
  constructor
  · intro l o precision d h1 h2
    have hn1 : next5 l (serialize d) = .ok (l + d, []) := by
      have := next5_serialize l d [] h1 h2
      rwa [List.append_nil] at this
    have := pop_err_lon ⟨serialize d, l, o, precision⟩ (l + d) [] "Bad encoded polyline" hn1 rfl
    exact this
  · intro buf precision pts h
    unfold decode Shape5Decoder.init at h
    have := decodeGo_count buf.length ⟨buf, 0, 0, precision⟩ [] pts le_rfl h buf.length le_rfl
    simpa [countSamples] using this

/-- Witness for C9: a buffer holding exactly one sample (delta 5) fails in
`pop` with the latitude accumulator advanced to 5; and the empty decode has
zero samples. -/
theorem spec_c9_witness :
    (-(2 ^ 30) ≤ (5 : Int) ∧ (5 : Int) < 2 ^ 30 ∧
      Shape5Decoder.pop ⟨serialize 5, 0, 0, 1⟩ =
        (.error "Bad encoded polyline", ⟨[], 0 + 5, 0, 1⟩)) ∧
    (decode [] 1 = .ok [] ∧ countSamples [] = some (2 * ([] : List Point).length)) :=
  ⟨⟨by norm_num, by norm_num, (spec_c9_odd_sample).1 0 0 1 5 (by norm_num) (by norm_num)⟩,
   ⟨rfl, (spec_c9_odd_sample).2 [] 1 [] rfl⟩⟩

/-- C10: `empty` is true exactly when the cursor is at the end, and every
`pop` — successful or failed — only advances the cursor within the buffer:
the remaining bytes are a suffix of the old ones and never grow. -/
theorem spec_c10_cursor_bounds :
    (∀ s : Shape5Decoder, s.empty = true ↔ s.buf = []) ∧
    (∀ (s : Shape5Decoder) (r : Except String Point) (s' : Shape5Decoder),
      s.pop = (r, s') → (∃ t, t ++ s'.buf = s.buf) ∧ s'.buf.length ≤ s.buf.length) :=
  ⟨empty_iff_nil, pop_suffix⟩

/-- Witness for C10 on the concrete buffer [65, 65]. -/
theorem spec_c10_witness :
    (⟨[65, 65], 0, 0, 1⟩ : Shape5Decoder).pop =
      (.ok (((1 : Int) : ℚ) * 1, ((1 : Int) : ℚ) * 1), ⟨[], 1, 1, 1⟩) ∧
    ((∃ t : List Nat, t ++ [] = [65, 65]) ∧ ([] : List Nat).length ≤ [65, 65].length) :=
  ⟨pop_ok ⟨[65, 65], 0, 0, 1⟩ 1 1 [65] [] rfl rfl,
   spec_c10_cursor_bounds.2 ⟨[65, 65], 0, 0, 1⟩
     (.ok (((1 : Int) : ℚ) * 1, ((1 : Int) : ℚ) * 1)) ⟨[], 1, 1, 1⟩
     (pop_ok ⟨[65, 65], 0, 0, 1⟩ 1 1 [65] [] rfl rfl)⟩

end valhalla.midgard
